import Mathlib

/-!
Shallow embedding of the LED name-tag programmer's protocol core
(`design.py` of `led-name-tag-programmer`): the bit-packed bitmap type,
per-message configuration, header packing and bytestream assembly,
together with proofs of the specified properties.

Machine bytes are modelled as `Nat` (with explicit `% 256` where the code
packs values); byte strings are `List Nat`; fallible packing
(`struct.Struct.pack`, which raises on out-of-range values) returns
`Option`.  The external Qt glyph rasterizer is an abstract `Rasterizer`
structure consumed as a black box, and a Qt `Format_Mono` image is a byte
array (`bits`) with a row stride, most-significant bit = leftmost pixel.
-/

/-- `HEIGHT` constant of `design.py`: rows of the display. -/
def HEIGHT : Nat := 11

/-- `BPB` constant of `design.py`: bits per byte. -/
def BPB : Nat := 8

/-- `MESSAGES` constant of `design.py`: number of message slots. -/
def MESSAGES : Nat := 8

/-- `MAGIC = b'wang'` of `design.py`, as ASCII byte values. -/
def MAGIC : List Nat := [119, 97, 110, 103]

/-- A monochrome row-major pixel source: Qt `Format_Mono` image bits with a
row stride in bytes, as read by `Bitmap.__init__` via `obj.bits().asarray`. -/
structure MonoImage where
  stride : Nat
  bits : Nat → Nat

/-- Pixel `(x, y)` of a `Format_Mono` image: bit `7 - x % 8` of byte
`y * stride + x / 8` (MSB first, bit 7 = leftmost pixel of the group). -/
def MonoImage.pixel (img : MonoImage) (x y : Nat) : Bool :=
  (img.bits (y * img.stride + x / BPB)).testBit (7 - x % BPB)

/-- `Bitmap` of `design.py`: data kept in the bytestream format, 11 bytes
(one per row) per 8-pixel-wide column group, column groups consecutive. -/
structure Bitmap where
  data : List Nat
deriving DecidableEq

/-- `Bitmap.width`: `BPB * (len(self.data) // HEIGHT)`. -/
def Bitmap.width (b : Bitmap) : Nat := BPB * (b.data.length / HEIGHT)

/-- `Bitmap.width_bytes`: `len(self.data) // HEIGHT`. -/
def Bitmap.width_bytes (b : Bitmap) : Nat := b.data.length / HEIGHT

/-- `Bitmap.byte_pixels(i)`: for each row byte of the slice
`data[HEIGHT*i : HEIGHT*(i+1)]`, yield `(col, row)` for every set bit,
testing bit `7 - col` (rows outer, columns inner, MSB first). -/
def Bitmap.byte_pixels (b : Bitmap) (i : Nat) : List (Nat × Nat) :=
  ((b.data.drop (HEIGHT * i)).take HEIGHT).enum.flatMap fun rd =>
    (List.range BPB).filterMap fun col =>
      if (rd.2).testBit (7 - col) then some (col, rd.1) else none

/-- `Bitmap.__init__` from a `QImage` and a pixel width: `width_bytes =
(width + 7) // BPB`, and the buffer is
`bytes(array[row*stride + col] for col in range(width_bytes)
for row in range(HEIGHT))`. -/
def Bitmap.ofImage (img : MonoImage) (width : Nat) : Bitmap :=
  ⟨(List.range ((width + 7) / BPB)).flatMap fun col =>
      (List.range HEIGHT).map fun row => img.bits (row * img.stride + col)⟩

/-- The external glyph rasterizer (`QFontMetrics` / `QPainter.drawText`)
as a black box: `boundWidth font text` is the rough bounding-rect width
estimate, and for a draw call with the given font, text, vertical offset
and canvas width, `drawWidth` is the real drawn width returned by
`drawText(...).width()` and `drawImage` the resulting mono canvas. -/
structure Rasterizer where
  boundWidth : String → String → Nat
  drawWidth : String → String → Int → Nat → Nat
  drawImage : String → String → Int → Nat → MonoImage

/-- `Message` of `design.py`: one of the 8 message slots. -/
structure Message where
  active : Bool
  flash : Bool
  border : Bool
  anim : Nat
  speed : Nat
  bitmap : Option Bitmap
  text : String
  font : String
  offset : Int

/-- `Message.__init__`: the default-constructed slot. -/
def Message.init : Message :=
  ⟨false, false, false, 0, 3, none, "", "Sans", 0⟩

/-- `Message.genBitmap`: return the inline bitmap if set; otherwise
rasterize `text` on a canvas twice the rough width estimate (absent bitmap
when that estimate is zero) and build a `Bitmap` from the canvas cropped
at the re-measured real drawn width. -/
def Message.genBitmap (m : Message) (R : Rasterizer) : Bitmap :=
  match m.bitmap with
  | some b => b
  | none =>
    if 2 * R.boundWidth m.font m.text = 0 then ⟨[]⟩
    else
      Bitmap.ofImage (R.drawImage m.font m.text m.offset (2 * R.boundWidth m.font m.text))
        (R.drawWidth m.font m.text m.offset (2 * R.boundWidth m.font m.text))

/-- Per-slot bitmap resolution in `Design.genBytestream`:
`msg.genBitmap() if msg.active else Bitmap()`. -/
def Message.resolveBitmap (m : Message) (R : Rasterizer) : Bitmap :=
  if m.active then m.genBitmap R else ⟨[]⟩

/-- `sum(msg.<flag> << i for (i, msg) in enumerate(self.msgs))`. -/
def packBits (f : Message → Bool) (msgs : List Message) : Nat :=
  (msgs.enum.map fun p => (if f p.2 then 1 else 0) <<< p.1).sum

/-- The per-slot mode byte `msg.speed << 4 | msg.anim`. -/
def Message.modeByte (m : Message) : Nat := m.speed <<< 4 ||| m.anim

/-- The fields of `time.localtime()` used by `Design.genBytestream`. -/
structure TimeStruct where
  tm_year : Nat
  tm_mon : Nat
  tm_mday : Nat
  tm_hour : Nat
  tm_min : Nat
  tm_sec : Nat
deriving DecidableEq

/-- The timestamp computation of `Design.genBytestream`:
`(year-1999) << 40 | mon << 32 | mday << 24 | hour << 16 | min << 8 | sec`. -/
def TimeStruct.timestamp (t : TimeStruct) : Nat :=
  ((t.tm_year - 1999) <<< 40) ||| (t.tm_mon <<< 32) ||| (t.tm_mday <<< 24) |||
    (t.tm_hour <<< 16) ||| (t.tm_min <<< 8) ||| t.tm_sec

/-- `n`-byte big-endian encoding of `x`, as produced by `struct` format
codes `H` (n = 2) and `Q` (n = 8). -/
def beBytes (n x : Nat) : List Nat :=
  (List.range n).map fun k => x / 256 ^ (n - 1 - k) % 256

/-- `HEADER.pack` for the format `>4s2xBB8B8H4xQ20x`: succeeds exactly when
every argument is in range for its field code (as `struct.pack` raises
otherwise), producing the 64-byte big-endian header. -/
def HEADER_pack (flash border : Nat) (modes lens : List Nat) (ts : Nat) :
    Option (List Nat) :=
  if flash < 256 ∧ border < 256 ∧ modes.length = 8 ∧ (∀ m ∈ modes, m < 256) ∧
      lens.length = 8 ∧ (∀ l ∈ lens, l < 65536) ∧ ts < 2 ^ 64 then
    some (MAGIC ++ [0, 0] ++ [flash, border] ++ modes ++ lens.flatMap (beBytes 2) ++
      [0, 0, 0, 0] ++ beBytes 8 ts ++ List.replicate 20 0)
  else none

/-- `Design` of `design.py`: the list of message slots (always 8 as
constructed). -/
structure Design where
  msgs : List Message

/-- `Design.genBytestream`: resolve one bitmap per slot, return empty bytes
if all are absent, else header (flash/border bit-packs, mode bytes, one
width word per bitmap, timestamp) followed by the concatenated bitmap
buffers. -/
def Design.genBytestream (d : Design) (R : Rasterizer) (t : TimeStruct) :
    Option (List Nat) :=
  if (d.msgs.map fun m => m.resolveBitmap R).all (fun b => b.data.isEmpty) then
    some []
  else
    (HEADER_pack (packBits Message.flash d.msgs) (packBits Message.border d.msgs)
        (d.msgs.map Message.modeByte)
        ((d.msgs.map fun m => m.resolveBitmap R).map Bitmap.width_bytes)
        t.timestamp).map
      fun h => h ++ (d.msgs.map fun m => m.resolveBitmap R).flatMap Bitmap.data

/-- Outcome of `MainWindow._get_bytestream`: either of its two rejection
dialogs, or the accepted bytestream. -/
inductive GetResult where
  | nothingToProgram
  | tooMuchData
  | ok (bs : List Nat)
deriving DecidableEq

/-- `MainWindow._get_bytestream`: generate the bytestream, reject an empty
result as "nothing to program" and a result longer than `4096 + 64` bytes
as "too much data", otherwise accept it. -/
def get_bytestream (d : Design) (R : Rasterizer) (t : TimeStruct) :
    Option GetResult :=
  (d.genBytestream R t).map fun bs =>
    if bs.isEmpty then GetResult.nothingToProgram
    else if 4096 + 64 < bs.length then GetResult.tooMuchData
    else GetResult.ok bs

/-! ### Concrete instances used to evaluate the definitions -/

/-- A trivial rasterizer: zero width estimates and a blank canvas. -/
def trivRast : Rasterizer :=
  ⟨fun _ _ => 0, fun _ _ _ _ => 0, fun _ _ _ _ => ⟨0, fun _ => 0⟩⟩

/-- A rasterizer whose re-measured drawn width is 8000 pixels. -/
def wideRast : Rasterizer :=
  ⟨fun _ _ => 4096, fun _ _ _ _ => 8000, fun _ _ _ _ => ⟨1024, fun _ => 0⟩⟩

/-- A text-mode slot: no inline bitmap, non-empty text. -/
def textMsg : Message := ⟨true, false, false, 0, 3, none, "A", "Sans", 0⟩

/-- An active slot with a 3-column-group (33-byte) inline bitmap. -/
def inlineMsg : Message :=
  ⟨true, false, false, 0, 3, some ⟨List.replicate 33 255⟩, "", "Sans", 0⟩

/-- An inactive slot that still carries text, a font and an inline bitmap. -/
def loadedInactiveMsg : Message :=
  ⟨false, true, true, 5, 7, some ⟨List.replicate 22 9⟩, "hi", "Serif", 2⟩

/-- An active slot with boundary mode values: speed 15, animation 10. -/
def maxModeMsg : Message :=
  ⟨true, true, true, 10, 15, some ⟨List.replicate 11 1⟩, "", "Sans", 0⟩

/-- A slot with boundary mode values: speed 0, animation 0. -/
def zeroModeMsg : Message := ⟨false, false, false, 0, 0, none, "", "Sans", 0⟩

/-- An active slot with a 47-column-group (517-byte) inline bitmap. -/
def bigMsg : Message :=
  ⟨true, false, false, 0, 3, some ⟨List.replicate 517 0⟩, "", "Sans", 0⟩

/-- A design with one active inline-bitmap slot. -/
def design1 : Design :=
  ⟨[inlineMsg, Message.init, Message.init, Message.init,
    Message.init, Message.init, Message.init, Message.init]⟩

/-- A design exercising the boundary mode values. -/
def design2 : Design :=
  ⟨[maxModeMsg, zeroModeMsg, Message.init, Message.init,
    Message.init, Message.init, Message.init, Message.init]⟩

/-- A design with all 8 slots default-constructed (inactive). -/
def designEmpty : Design := ⟨List.replicate 8 Message.init⟩

/-- A design whose serialization (64 + 8 × 517 = 4200 bytes) exceeds
4096 + 64 bytes. -/
def designBig : Design :=
  ⟨[bigMsg, bigMsg, bigMsg, bigMsg, bigMsg, bigMsg, bigMsg, bigMsg]⟩

/-- A concrete clock reading. -/
def time1 : TimeStruct := ⟨2026, 10, 12, 9, 30, 0⟩

/-- A clock reading in year 2026. -/
def timeA : TimeStruct := ⟨2026, 1, 1, 0, 0, 0⟩

/-- A clock reading one year after `timeA` (differs only in `tm_year`). -/
def timeB : TimeStruct := ⟨2027, 1, 1, 0, 0, 0⟩

/-- A one-byte-per-row pixel source with a single set pixel at (0, 0). -/
def img1 : MonoImage := ⟨1, fun n => if n = 0 then 128 else 0⟩

/-- A small rasterizer: width estimate 1, drawn width 2. -/
def smallRast : Rasterizer :=
  ⟨fun _ _ => 1, fun _ _ _ _ => 2, fun _ _ _ _ => ⟨1, fun _ => 0⟩⟩

/-- The bytestream of `design1` under `trivRast` at `time1`. -/
def bs1 : List Nat := (design1.genBytestream trivRast time1).getD []

/-- The bytestream of `designBig` under `trivRast` at `time1`. -/
def bsBig : List Nat := (designBig.genBytestream trivRast time1).getD []

/-- The bytestream of `design2` under `trivRast` at `time1`. -/
def bs2 : List Nat := (design2.genBytestream trivRast time1).getD []

/-! ### Generic list lemmas for uniform-block `flatMap` -/

theorem length_flatMap_uniform {α β : Type} {L : Nat} {f : α → List β}
    (hf : ∀ a, (f a).length = L) : ∀ l : List α, (l.flatMap f).length = L * l.length
  | [] => by simp
  | a :: l => by
    simp only [List.flatMap_cons, List.length_append, hf a,
      length_flatMap_uniform hf l, List.length_cons]
    ring

theorem getElem?_flatMap_uniform {α β : Type} {L : Nat} {f : α → List β}
    (hf : ∀ a, (f a).length = L) :
    ∀ (l : List α) (i r : Nat) (hi : i < l.length), r < L →
      (l.flatMap f)[L * i + r]? = (f (l.get ⟨i, hi⟩))[r]? := by
  intro l
  induction l with
  | nil => intro i r hi _; simp at hi
  | cons a l ih =>
    intro i r hi hr
    match i with
    | 0 =>
      rw [List.flatMap_cons, List.getElem?_append_left (by rw [hf a]; omega)]
      simp
    | j + 1 =>
      have hL : L ≤ L * (j + 1) + r := by
        have h1 : L * 1 ≤ L * (j + 1) := Nat.mul_le_mul_left L (by omega)
        simp only [Nat.mul_one] at h1
        omega
      rw [List.flatMap_cons, List.getElem?_append_right (by rw [hf a]; exact hL)]
      have hidx : L * (j + 1) + r - (f a).length = L * j + r := by
        rw [hf a, Nat.mul_succ]; omega
      rw [hidx, ih j r (by simpa using Nat.lt_of_succ_lt_succ hi) hr]
      simp

theorem pair_mem_enum_iff {α : Type} {l : List α} {r : Nat} {x : α} :
    (r, x) ∈ l.enum ↔ l[r]? = some x := by
  rw [List.enum_eq_enumFrom, List.mem_iff_getElem?]
  constructor
  · rintro ⟨n, hn⟩
    rw [List.getElem?_enumFrom] at hn
    cases h : l[n]? with
    | none => rw [h] at hn; simp at hn
    | some a =>
      rw [h] at hn
      have hn' : (0 + n, a) = (r, x) := Option.some.inj hn
      have h1 : n = r := by have := congrArg Prod.fst hn'; simpa using this
      have h2 : a = x := congrArg Prod.snd hn'
      rw [← h1, h, h2]
  · intro h
    exact ⟨r, by rw [List.getElem?_enumFrom, h]; simp⟩

/-! ### Bitmap layout lemmas -/

theorem ofImage_data_length (img : MonoImage) (w : Nat) :
    (Bitmap.ofImage img w).data.length = HEIGHT * ((w + 7) / BPB) := by
  show ((List.range ((w + 7) / BPB)).flatMap _).length = _
  rw [length_flatMap_uniform (L := HEIGHT) (fun c => by simp)]
  simp

theorem ofImage_width_bytes (img : MonoImage) (w : Nat) :
    (Bitmap.ofImage img w).width_bytes = (w + 7) / BPB := by
  unfold Bitmap.width_bytes
  rw [ofImage_data_length]
  exact Nat.mul_div_cancel_left _ (by norm_num [HEIGHT])

theorem ofImage_width (img : MonoImage) (w : Nat) :
    (Bitmap.ofImage img w).width = BPB * ((w + 7) / BPB) := by
  unfold Bitmap.width
  rw [ofImage_data_length]
  rw [Nat.mul_div_cancel_left _ (by norm_num [HEIGHT])]

/-- Membership in `byte_pixels i` in terms of the flat buffer: bit `7 - col`
of byte `HEIGHT * i + row`. -/
theorem mem_byte_pixels {b : Bitmap} {i col row : Nat} :
    (col, row) ∈ b.byte_pixels i ↔
      col < BPB ∧ row < HEIGHT ∧
        ∃ x, b.data[HEIGHT * i + row]? = some x ∧ x.testBit (7 - col) = true := by
  unfold Bitmap.byte_pixels
  constructor
  · intro hmem
    obtain ⟨rd, hrd, hc⟩ := List.mem_flatMap.1 hmem
    obtain ⟨c, hcr, hif⟩ := List.mem_filterMap.1 hc
    by_cases hbit : (rd.2).testBit (7 - c) = true
    · rw [if_pos hbit] at hif
      have hcc : c = col ∧ rd.1 = row := by
        have := Option.some.inj hif
        exact ⟨congrArg Prod.fst this, congrArg Prod.snd this⟩
      obtain ⟨rfl, hrow⟩ := hcc
      have hrd' : (rd.1, rd.2) ∈ ((b.data.drop (HEIGHT * i)).take HEIGHT).enum := hrd
      have hsl := pair_mem_enum_iff.1 hrd'
      rw [List.getElem?_take] at hsl
      split at hsl
      next hlt =>
        rw [List.getElem?_drop] at hsl
        exact ⟨List.mem_range.1 hcr, by rw [← hrow]; exact hlt,
          rd.2, by rw [← hrow]; exact hsl, hbit⟩
      next => exact absurd hsl (by simp)
    · rw [if_neg hbit] at hif
      cases hif
  · rintro ⟨hcol, hrow, x, hx, hbit⟩
    apply List.mem_flatMap.2
    refine ⟨(row, x), ?_, ?_⟩
    · apply pair_mem_enum_iff.2
      rw [List.getElem?_take, if_pos hrow, List.getElem?_drop]
      exact hx
    · exact List.mem_filterMap.2 ⟨col, List.mem_range.2 hcol, by rw [if_pos hbit]⟩

/-- Every pair yielded by `byte_pixels` has `col < 8` and `row < HEIGHT`. -/
theorem byte_pixels_bounds {b : Bitmap} {i : Nat} :
    ∀ p ∈ b.byte_pixels i, p.1 < 8 ∧ p.2 < 11 := by
  rintro ⟨col, row⟩ hp
  obtain ⟨hcol, hrow, -⟩ := mem_byte_pixels.1 hp
  exact ⟨hcol, hrow⟩

/-! ### Header packing lemmas -/

theorem beBytes_length (n x : Nat) : (beBytes n x).length = n := by
  simp [beBytes]

theorem beBytes_two (v : Nat) : beBytes 2 v = [v / 256 % 256, v % 256] := by
  show (List.range 2).map _ = _
  rw [show (2 : Nat) = 1 + 1 from rfl, List.range_succ, List.range_succ, List.range_zero]
  simp

/-- Reading the two bytes of each 16-bit big-endian word out of the
concatenated word list. -/
theorem flatMap_beBytes_two_getD (lens : List Nat) :
    ∀ i, i < lens.length →
      (lens.flatMap (beBytes 2)).getD (2 * i) 0 = lens.getD i 0 / 256 % 256 ∧
      (lens.flatMap (beBytes 2)).getD (2 * i + 1) 0 = lens.getD i 0 % 256 := by
  induction lens with
  | nil => intro i hi; simp at hi
  | cons v lv ih =>
    intro i hi
    match i with
    | 0 =>
      rw [List.flatMap_cons, beBytes_two]
      exact ⟨rfl, rfl⟩
    | j + 1 =>
      rw [List.flatMap_cons, beBytes_two]
      have hj : j < lv.length := by simpa using Nat.lt_of_succ_lt_succ hi
      have h2 : 2 * (j + 1) = 2 * j + 1 + 1 := by ring
      have h3 : 2 * (j + 1) + 1 = (2 * j + 1) + 1 + 1 := by ring
      constructor
      · rw [h2]
        show ((v / 256 % 256) :: (v % 256) :: lv.flatMap (beBytes 2)).getD (2 * j + 1 + 1) 0 = _
        rw [List.getD_cons_succ, List.getD_cons_succ]
        exact (ih j hj).1.trans (by rw [List.getD_cons_succ])
      · rw [h3]
        show ((v / 256 % 256) :: (v % 256) :: lv.flatMap (beBytes 2)).getD (2 * j + 1 + 1 + 1) 0 = _
        rw [List.getD_cons_succ, List.getD_cons_succ]
        exact (ih j hj).2.trans (by rw [List.getD_cons_succ])

/-- Case analysis of `Design.genBytestream`: either every resolved bitmap is
absent and the result is empty bytes, or the result is the packed header
(whose `struct` range conditions therefore all hold) followed by the
concatenated bitmap buffers. -/
theorem genBytestream_some_cases {R : Rasterizer} {d : Design} {t : TimeStruct}
    {bs : List Nat} (hgen : d.genBytestream R t = some bs) :
    ((d.msgs.map fun m => m.resolveBitmap R).all (fun b => b.data.isEmpty) = true ∧
      bs = []) ∨
    ((d.msgs.map fun m => m.resolveBitmap R).all (fun b => b.data.isEmpty) = false ∧
      d.msgs.length = 8 ∧
      packBits Message.flash d.msgs < 256 ∧ packBits Message.border d.msgs < 256 ∧
      (∀ l ∈ (d.msgs.map fun m => m.resolveBitmap R).map Bitmap.width_bytes, l < 65536) ∧
      t.timestamp < 2 ^ 64 ∧
      bs = MAGIC ++ [0, 0] ++
        [packBits Message.flash d.msgs, packBits Message.border d.msgs] ++
        d.msgs.map Message.modeByte ++
        ((d.msgs.map fun m => m.resolveBitmap R).map Bitmap.width_bytes).flatMap
          (beBytes 2) ++
        [0, 0, 0, 0] ++ beBytes 8 t.timestamp ++ List.replicate 20 0 ++
        (d.msgs.map fun m => m.resolveBitmap R).flatMap Bitmap.data) := by
  unfold Design.genBytestream at hgen
  split at hgen
  next hc => exact Or.inl ⟨hc, (Option.some.inj hgen).symm⟩
  next hc =>
    right
    refine ⟨by simpa using hc, ?_⟩
    obtain ⟨h, hpack, hbs⟩ := Option.map_eq_some'.1 hgen
    unfold HEADER_pack at hpack
    split at hpack
    next hcond =>
      obtain ⟨h1, h2, h3, -, h5, h6, h7⟩ := hcond
      have hmsgs : d.msgs.length = 8 := by simpa using h3
      refine ⟨hmsgs, h1, h2, h6, h7, ?_⟩
      rw [← hbs, ← Option.some.inj hpack]
    next => cases hpack

/-- C1: every non-empty serialization starts with the 64-byte big-endian
header: magic `wang` (ASCII 119 97 110 103), 2 zero padding bytes, the flash
byte, the border byte, 8 mode bytes, 8 16-bit length words, 4 zero reserved
bytes, the 8-byte timestamp, and 20 trailing zero bytes, in that order. -/
theorem spec_C1 (R : Rasterizer) (d : Design) (t : TimeStruct) (bs : List Nat)
    (hgen : d.genBytestream R t = some bs) (hne : bs ≠ []) :
    ∃ payload : List Nat,
      bs = MAGIC ++ [0, 0] ++
        [packBits Message.flash d.msgs, packBits Message.border d.msgs] ++
        d.msgs.map Message.modeByte ++
        ((d.msgs.map fun m => m.resolveBitmap R).map Bitmap.width_bytes).flatMap
          (beBytes 2) ++
        [0, 0, 0, 0] ++ beBytes 8 t.timestamp ++ List.replicate 20 0 ++ payload ∧
      MAGIC = [119, 97, 110, 103] ∧
      (d.msgs.map Message.modeByte).length = 8 ∧
      (((d.msgs.map fun m => m.resolveBitmap R).map Bitmap.width_bytes).flatMap
        (beBytes 2)).length = 16 ∧
      (beBytes 8 t.timestamp).length = 8 ∧
      (List.replicate 20 (0 : Nat)).length = 20 := by
  rcases genBytestream_some_cases hgen with ⟨-, rfl⟩ | ⟨-, hmsgs, -, -, -, -, hbs⟩
  · exact absurd rfl hne
  · refine ⟨(d.msgs.map fun m => m.resolveBitmap R).flatMap Bitmap.data,
      hbs, rfl, by simp [hmsgs], ?_, beBytes_length 8 _, List.length_replicate 20 0⟩
    rw [length_flatMap_uniform (L := 2) (fun v => beBytes_length 2 v)]
    simp [hmsgs]

/-- Witness for C1 at `design1` / `trivRast` / `time1`. -/
theorem spec_C1_witness :
    ∃ payload : List Nat,
      bs1 = MAGIC ++ [0, 0] ++
        [packBits Message.flash design1.msgs, packBits Message.border design1.msgs] ++
        design1.msgs.map Message.modeByte ++
        ((design1.msgs.map fun m => m.resolveBitmap trivRast).map
          Bitmap.width_bytes).flatMap (beBytes 2) ++
        [0, 0, 0, 0] ++ beBytes 8 time1.timestamp ++ List.replicate 20 0 ++ payload ∧
      MAGIC = [119, 97, 110, 103] ∧
      (design1.msgs.map Message.modeByte).length = 8 ∧
      (((design1.msgs.map fun m => m.resolveBitmap trivRast).map
        Bitmap.width_bytes).flatMap (beBytes 2)).length = 16 ∧
      (beBytes 8 time1.timestamp).length = 8 ∧
      (List.replicate 20 (0 : Nat)).length = 20 :=
  spec_C1 trivRast design1 time1 bs1 rfl (by decide)

/-- C2: in a non-empty serialization, slot `i`'s big-endian 16-bit length
word (header bytes `16 + 2i`, `17 + 2i`) equals the `width_bytes` of slot
`i`'s resolved bitmap (0 for an absent bitmap), and the bytes after the
64-byte header are exactly the concatenated resolved bitmap buffers in slot
order. -/
theorem spec_C2 (R : Rasterizer) (d : Design) (t : TimeStruct) (bs : List Nat)
    (hgen : d.genBytestream R t = some bs) (hne : bs ≠ []) :
    (∀ i, i < 8 →
      256 * bs.getD (16 + 2 * i) 0 + bs.getD (16 + 2 * i + 1) 0 =
        ((d.msgs.getD i Message.init).resolveBitmap R).width_bytes) ∧
    bs.drop 64 = (d.msgs.map fun m => m.resolveBitmap R).flatMap Bitmap.data := by
  rcases genBytestream_some_cases hgen with ⟨-, rfl⟩ | ⟨-, hmsgs, -, -, h655, -, hbs⟩
  · exact absurd rfl hne
  · have hlens :
        ((d.msgs.map fun m => m.resolveBitmap R).map Bitmap.width_bytes).length = 8 := by
      simp [hmsgs]
    have hW : (((d.msgs.map fun m => m.resolveBitmap R).map Bitmap.width_bytes).flatMap
        (beBytes 2)).length = 16 := by
      rw [length_flatMap_uniform (L := 2) (fun v => beBytes_length 2 v), hlens]
    constructor
    · intro i hi
      have hget : ∀ j, j < 16 → bs.getD (16 + j) 0 =
          (((d.msgs.map fun m => m.resolveBitmap R).map Bitmap.width_bytes).flatMap
            (beBytes 2)).getD j 0 := by
        intro j hj
        rw [hbs]
        rw [List.getD_append _ _ _ _ (by simp only [List.length_append, List.length_cons, List.length_nil, List.length_map, List.length_replicate, hW, hmsgs, beBytes_length, MAGIC]; omega)]
        rw [List.getD_append _ _ _ _ (by simp only [List.length_append, List.length_cons, List.length_nil, List.length_map, List.length_replicate, hW, hmsgs, beBytes_length, MAGIC]; omega)]
        rw [List.getD_append _ _ _ _ (by simp only [List.length_append, List.length_cons, List.length_nil, List.length_map, List.length_replicate, hW, hmsgs, beBytes_length, MAGIC]; omega)]
        rw [List.getD_append _ _ _ _ (by simp only [List.length_append, List.length_cons, List.length_nil, List.length_map, List.length_replicate, hW, hmsgs, beBytes_length, MAGIC]; omega)]
        rw [List.getD_append_right _ _ _ _ (by simp only [List.length_append, List.length_cons, List.length_nil, List.length_map, hmsgs, MAGIC]; omega)]
        have h16 : ((MAGIC ++ [0, 0] ++
            [packBits Message.flash d.msgs, packBits Message.border d.msgs] ++
            d.msgs.map Message.modeByte)).length = 16 := by
          simp only [List.length_append, List.length_cons, List.length_nil,
            List.length_map, hmsgs, MAGIC]
        rw [h16, Nat.add_sub_cancel_left]
      have hpair := flatMap_beBytes_two_getD
        ((d.msgs.map fun m => m.resolveBitmap R).map Bitmap.width_bytes) i
        (by rw [hlens]; exact hi)
      have hidx : 16 + 2 * i + 1 = 16 + (2 * i + 1) := by omega
      rw [hidx, hget (2 * i) (by omega), hget (2 * i + 1) (by omega),
        hpair.1, hpair.2]
      have hl : ((d.msgs.map fun m => m.resolveBitmap R).map
          Bitmap.width_bytes).getD i 0 =
          ((d.msgs.getD i Message.init).resolveBitmap R).width_bytes := by
        rw [List.getD_eq_getElem _ _ (by rw [hlens]; exact hi)]
        rw [List.getElem_map, List.getElem_map]
        rw [List.getD_eq_getElem _ _ (by rw [hmsgs]; exact hi)]
      have hmem : ((d.msgs.map fun m => m.resolveBitmap R).map
          Bitmap.width_bytes).getD i 0 ∈
          (d.msgs.map fun m => m.resolveBitmap R).map Bitmap.width_bytes := by
        rw [List.getD_eq_getElem _ _ (by rw [hlens]; exact hi)]
        exact List.getElem_mem _
      have hlt := h655 _ hmem
      rw [hl] at hlt ⊢
      omega
    · rw [hbs]
      exact List.drop_left' (by
        simp only [List.length_append, List.length_cons, List.length_nil,
          List.length_map, List.length_replicate, hW, hmsgs, beBytes_length, MAGIC])

/-- Witness for C2: in `design1` the single active slot's length word is 3,
a neighbouring inactive slot's word is 0, and the payload is 33 bytes. -/
theorem spec_C2_witness :
    (256 * bs1.getD 16 0 + bs1.getD 17 0 = 3 ∧
      256 * bs1.getD 18 0 + bs1.getD 19 0 = 0) ∧
    (bs1.drop 64).length = 3 * 11 := by
  have h := spec_C2 trivRast design1 time1 bs1 rfl (by decide)
  refine ⟨⟨(h.1 0 (by norm_num)).trans (by decide),
    ((h.1 1 (by norm_num)).trans (by decide))⟩, ?_⟩
  rw [h.2]
  decide

/-- C6: in a non-empty serialization, the mode byte for slot `i` (header
byte `8 + i`) equals `(speed <<< 4) ||| anim` for that slot, and is a byte
(< 256) whenever `speed ≤ 15` and `anim ≤ 10`. -/
theorem spec_C6 (R : Rasterizer) (d : Design) (t : TimeStruct) (bs : List Nat)
    (hgen : d.genBytestream R t = some bs) (hne : bs ≠ []) (i : Nat) (hi : i < 8)
    (hs : (d.msgs.getD i Message.init).speed ≤ 15)
    (ha : (d.msgs.getD i Message.init).anim ≤ 10) :
    bs.getD (8 + i) 0 =
      (d.msgs.getD i Message.init).speed <<< 4 ||| (d.msgs.getD i Message.init).anim ∧
    bs.getD (8 + i) 0 < 256 := by
  rcases genBytestream_some_cases hgen with ⟨-, rfl⟩ | ⟨-, hmsgs, -, -, -, -, hbs⟩
  · exact absurd rfl hne
  · have hW : (((d.msgs.map fun m => m.resolveBitmap R).map Bitmap.width_bytes).flatMap
        (beBytes 2)).length = 16 := by
      rw [length_flatMap_uniform (L := 2) (fun v => beBytes_length 2 v)]
      simp [hmsgs]
    have hbyte : bs.getD (8 + i) 0 = (d.msgs.map Message.modeByte).getD i 0 := by
      rw [hbs]
      rw [List.getD_append _ _ _ _ (by simp only [List.length_append, List.length_cons, List.length_nil, List.length_map, List.length_replicate, hW, hmsgs, beBytes_length, MAGIC]; omega)]
      rw [List.getD_append _ _ _ _ (by simp only [List.length_append, List.length_cons, List.length_nil, List.length_map, List.length_replicate, hW, hmsgs, beBytes_length, MAGIC]; omega)]
      rw [List.getD_append _ _ _ _ (by simp only [List.length_append, List.length_cons, List.length_nil, List.length_map, List.length_replicate, hW, hmsgs, beBytes_length, MAGIC]; omega)]
      rw [List.getD_append _ _ _ _ (by simp only [List.length_append, List.length_cons, List.length_nil, List.length_map, List.length_replicate, hW, hmsgs, beBytes_length, MAGIC]; omega)]
      rw [List.getD_append _ _ _ _ (by simp only [List.length_append, List.length_cons, List.length_nil, List.length_map, hmsgs, MAGIC]; omega)]
      rw [List.getD_append_right _ _ _ _ (by simp only [List.length_append, List.length_cons, List.length_nil, MAGIC]; omega)]
      have h8 : ((MAGIC ++ [0, 0] ++
          [packBits Message.flash d.msgs, packBits Message.border d.msgs])).length = 8 := by
        simp only [List.length_append, List.length_cons, List.length_nil, MAGIC]
      rw [h8, Nat.add_sub_cancel_left]
    have hmode : (d.msgs.map Message.modeByte).getD i 0 =
        Message.modeByte (d.msgs.getD i Message.init) := by
      rw [List.getD_eq_getElem _ _ (by simp [hmsgs]; exact hi)]
      rw [List.getElem_map]
      rw [List.getD_eq_getElem _ _ (by rw [hmsgs]; exact hi)]
    refine ⟨hbyte.trans hmode, ?_⟩
    rw [hbyte, hmode]
    unfold Message.modeByte
    have h1 : (d.msgs.getD i Message.init).speed <<< 4 < 2 ^ 8 := by
      rw [Nat.shiftLeft_eq]
      omega
    have h2 : (d.msgs.getD i Message.init).anim < 2 ^ 8 := by omega
    exact Nat.or_lt_two_pow h1 h2

/-- Witness for C6: in `design2`, slot 0 has the boundary values speed 15
and animation 10 (mode byte 250 = (15 << 4) | 10), slot 1 the boundary
values speed 0 and animation 0 (mode byte 0). -/
theorem spec_C6_witness : bs2.getD 8 0 = 250 ∧ bs2.getD 9 0 = 0 := by
  have h0 := spec_C6 trivRast design2 time1 bs2 rfl (by decide) 0
    (by norm_num) (by decide) (by decide)
  have h1 := spec_C6 trivRast design2 time1 bs2 rfl (by decide) 1
    (by norm_num) (by decide) (by decide)
  exact ⟨h0.1.trans (by decide), h1.1.trans (by decide)⟩

/-- C3: a bitmap built from a row-major monochrome pixel source of height 11
and pixel width `w` has `width_bytes = ceil(w/8)`, and `byte_pixels i` yields
`(col, row)` (bit 7 = leftmost, rows outer) exactly when the source pixel at
original coordinates `(8*i + col, row)` is set. -/
theorem spec_C3 (img : MonoImage) (w : Nat) :
    (Bitmap.ofImage img w).width_bytes = (w + 7) / 8 ∧
    ∀ i col row : Nat, col < 8 → row < 11 → 8 * i + col < w →
      ((col, row) ∈ (Bitmap.ofImage img w).byte_pixels i ↔
        img.pixel (8 * i + col) row = true) := by
  constructor
  · exact ofImage_width_bytes img w
  · intro i col row hcol hrow hw
    have hi : i < (w + 7) / 8 := by
      have h1 : (i + 1) * 8 ≤ w + 7 := by omega
      have h2 := (Nat.le_div_iff_mul_le (k := 8) (by norm_num)).2 h1
      omega
    have hdata : (Bitmap.ofImage img w).data[HEIGHT * i + row]? =
        some (img.bits (row * img.stride + i)) := by
      show ((List.range ((w + 7) / BPB)).flatMap _)[HEIGHT * i + row]? = _
      rw [getElem?_flatMap_uniform (L := HEIGHT) (fun c => by simp)
        _ i row (by simpa [BPB] using hi) (by simpa [HEIGHT] using hrow)]
      simp [HEIGHT, hrow, List.getElem?_map, List.getElem?_range]
    have hdiv : (8 * i + col) / 8 = i := by
      rw [Nat.mul_add_div (by norm_num)]
      simp [Nat.div_eq_of_lt hcol]
    have hmod : (8 * i + col) % 8 = col := by
      rw [Nat.mul_add_mod]
      exact Nat.mod_eq_of_lt hcol
    rw [mem_byte_pixels]
    unfold MonoImage.pixel
    rw [show ((8 : Nat) * i + col) / BPB = i from hdiv,
      show ((8 : Nat) * i + col) % BPB = col from hmod]
    constructor
    · rintro ⟨-, -, x, hx, hbit⟩
      rw [hdata] at hx
      rw [Option.some.inj hx]
      exact hbit
    · intro hpix
      exact ⟨hcol, by simpa [HEIGHT] using hrow,
        img.bits (row * img.stride + i), hdata, hpix⟩

/-- Witness for C3 at the single-pixel source `img1` with `w = 3`. -/
theorem spec_C3_witness :
    (Bitmap.ofImage img1 3).width_bytes = (3 + 7) / 8 ∧
    ((0, 0) ∈ (Bitmap.ofImage img1 3).byte_pixels 0 ↔ img1.pixel 0 0 = true) :=
  ⟨(spec_C3 img1 3).1, (spec_C3 img1 3).2 0 0 0 (by decide) (by decide) (by decide)⟩

/-- C10: `byte_pixels` is total and safe: every yielded pair has
`0 ≤ col < 8` and `0 ≤ row < 11`, and (under the data-model invariant that
the buffer length is a multiple of 11) an index `i ≥ width_bytes` yields the
empty sequence rather than an error. -/
theorem spec_C10 (b : Bitmap) (i : Nat) :
    (∀ p ∈ b.byte_pixels i, p.1 < 8 ∧ p.2 < 11) ∧
    (b.data.length % 11 = 0 → b.width_bytes ≤ i → b.byte_pixels i = []) := by
  refine ⟨byte_pixels_bounds, fun hinv hi => ?_⟩
  unfold Bitmap.byte_pixels
  have hlen : b.data.length ≤ HEIGHT * i := by
    unfold Bitmap.width_bytes at hi
    unfold HEIGHT at hi ⊢
    omega
  rw [List.drop_eq_nil_iff.2 hlen]
  simp

/-- Witness for C10 at a one-column-group bitmap: the in-range group yields
in-bounds pairs and the out-of-range group index 1 yields nothing. -/
theorem spec_C10_witness :
    ((0, 0).1 < 8 ∧ (0, 0).2 < 11) ∧
    (Bitmap.mk (List.replicate 11 255)).byte_pixels 1 = [] :=
  ⟨(spec_C10 ⟨List.replicate 11 255⟩ 0).1 (0, 0) (by decide),
   (spec_C10 ⟨List.replicate 11 255⟩ 1).2 (by decide) (by decide)⟩

/-- C4: if every resolved bitmap is absent (in particular when all 8 slots
are inactive), serialization returns the empty byte sequence (a successful
`some []`, not an error); and an inactive slot's resolved bitmap is absent
regardless of its text, font and inline-bitmap fields. -/
theorem spec_C4 :
    (∀ (R : Rasterizer) (d : Design) (t : TimeStruct),
      (d.msgs.map fun m => m.resolveBitmap R).all (fun b => b.data.isEmpty) = true →
      d.genBytestream R t = some []) ∧
    (∀ (R : Rasterizer) (m : Message), m.active = false →
      m.resolveBitmap R = ⟨[]⟩) := by
  constructor
  · intro R d t hc
    unfold Design.genBytestream
    rw [if_pos hc]
  · intro R m hm
    unfold Message.resolveBitmap
    rw [hm]
    simp

/-- Witness for C4: the all-inactive design serializes to empty bytes, and
an inactive slot carrying text, a font and an inline bitmap still resolves
to the absent bitmap. -/
theorem spec_C4_witness :
    designEmpty.genBytestream trivRast time1 = some [] ∧
    loadedInactiveMsg.resolveBitmap trivRast = ⟨[]⟩ :=
  ⟨spec_C4.1 trivRast designEmpty time1 (by decide),
   spec_C4.2 trivRast loadedInactiveMsg rfl⟩

/-- C5 (amended): for a slot with no inline bitmap, non-empty text and a
nonzero rasterizer width estimate, resolution returns the drawn canvas
cropped at the re-measured real drawn width, occupying
`ceil(real_width / 8)` column groups; no 4096-pixel cap is applied. -/
theorem spec_C5 (R : Rasterizer) (m : Message) (hbm : m.bitmap = none)
    (_htext : m.text ≠ "") (hest : R.boundWidth m.font m.text ≠ 0) :
    m.genBitmap R =
      Bitmap.ofImage (R.drawImage m.font m.text m.offset (2 * R.boundWidth m.font m.text))
        (R.drawWidth m.font m.text m.offset (2 * R.boundWidth m.font m.text)) ∧
    (m.genBitmap R).width_bytes =
      (R.drawWidth m.font m.text m.offset (2 * R.boundWidth m.font m.text) + 7) / 8 ∧
    (m.genBitmap R).width =
      8 * ((R.drawWidth m.font m.text m.offset (2 * R.boundWidth m.font m.text) + 7) / 8) := by
  have hgen : m.genBitmap R =
      Bitmap.ofImage (R.drawImage m.font m.text m.offset (2 * R.boundWidth m.font m.text))
        (R.drawWidth m.font m.text m.offset (2 * R.boundWidth m.font m.text)) := by
    unfold Message.genBitmap
    rw [hbm]
    simp [hest]
  exact ⟨hgen, by rw [hgen]; exact ofImage_width_bytes _ _,
    by rw [hgen]; exact ofImage_width _ _⟩

/-- Counterexample to C5 as stated: with a rasterizer whose re-measured
drawn width is 8000 pixels, the resolved bitmap is 8000 pixels
(1000 column groups) wide — there is no cap at 4096 pixels
(512 column groups) in the text path. -/
theorem spec_C5_cex :
    (textMsg.genBitmap wideRast).width = 8000 ∧
    ¬ (textMsg.genBitmap wideRast).width ≤ 4096 := by
  have h : textMsg.genBitmap wideRast =
      Bitmap.ofImage (wideRast.drawImage "Sans" "A" 0 8192) 8000 := rfl
  rw [h, ofImage_width]
  norm_num [BPB]

/-- Witness for C5 at `textMsg` under `smallRast`. -/
theorem spec_C5_witness : (textMsg.genBitmap smallRast).width_bytes = 1 := by
  have h := spec_C5 smallRast textMsg rfl (by decide) (by decide)
  exact h.2.1.trans (by decide)

/-- C7: a slot holding an inline bitmap resolves to that bitmap unchanged,
independent of the rasterizer (it is never invoked) and of the text, font
and offset fields; repeated resolutions give the identical bitmap. -/
theorem spec_C7 (R S : Rasterizer) (m : Message) (b : Bitmap)
    (h : m.bitmap = some b) :
    m.genBitmap R = b ∧ m.genBitmap S = m.genBitmap R ∧
    ∀ (text font : String) (offset : Int),
      (Message.mk m.active m.flash m.border m.anim m.speed (some b)
        text font offset).genBitmap R = b := by
  have h1 : ∀ T : Rasterizer, m.genBitmap T = b := by
    intro T
    unfold Message.genBitmap
    rw [h]
  exact ⟨h1 R, (h1 S).trans (h1 R).symm, fun text font offset => rfl⟩

/-- Witness for C7 at `inlineMsg` under two different rasterizers. -/
theorem spec_C7_witness :
    inlineMsg.genBitmap trivRast = Bitmap.mk (List.replicate 33 255) ∧
    inlineMsg.genBitmap wideRast = inlineMsg.genBitmap trivRast := by
  have h := spec_C7 trivRast wideRast inlineMsg ⟨List.replicate 33 255⟩ rfl
  exact ⟨h.1, h.2.1⟩

/-- Replacing an 8-byte middle segment at offset 36 (before a common
suffix) leaves every byte outside positions 36..43 unchanged. -/
theorem getD_eq_outside_middle {P T U Rep payload : List Nat}
    (hP : P.length = 36) (hT : T.length = 8) (hU : U.length = 8)
    (hRep : Rep.length = 20) (k : Nat) (hk : k < 36 ∨ 43 < k) :
    (P ++ T ++ Rep ++ payload).getD k 0 = (P ++ U ++ Rep ++ payload).getD k 0 := by
  rcases hk with hk | hk
  · rw [List.getD_append ((P ++ T) ++ Rep) payload 0 k (by simp [hP, hT, hRep]; omega),
      List.getD_append (P ++ T) Rep 0 k (by simp [hP, hT]; omega),
      List.getD_append P T 0 k (by omega),
      List.getD_append ((P ++ U) ++ Rep) payload 0 k (by simp [hP, hU, hRep]; omega),
      List.getD_append (P ++ U) Rep 0 k (by simp [hP, hU]; omega),
      List.getD_append P U 0 k (by omega)]
  · by_cases h64 : k < 64
    · rw [List.getD_append ((P ++ T) ++ Rep) payload 0 k (by simp [hP, hT, hRep]; omega),
        List.getD_append_right (P ++ T) Rep 0 k (by simp [hP, hT]; omega),
        List.getD_append ((P ++ U) ++ Rep) payload 0 k (by simp [hP, hU, hRep]; omega),
        List.getD_append_right (P ++ U) Rep 0 k (by simp [hP, hU]; omega)]
      simp [hP, hT, hU]
    · rw [List.getD_append_right ((P ++ T) ++ Rep) payload 0 k
          (by simp [hP, hT, hRep]; omega),
        List.getD_append_right ((P ++ U) ++ Rep) payload 0 k
          (by simp [hP, hU, hRep]; omega)]
      simp [hP, hT, hU, hRep]

/-- C8 (amended): two serializations of the same configuration under
different clock readings agree at every byte position outside the 8-byte
timestamp field, which occupies header bytes 36..43; with identical clock
readings the outputs are identical. -/
theorem spec_C8 (R : Rasterizer) (d : Design) (t1 t2 : TimeStruct)
    (bsA bsB : List Nat) (h1 : d.genBytestream R t1 = some bsA)
    (h2 : d.genBytestream R t2 = some bsB) :
    (∀ k, k < 36 ∨ 43 < k → bsA.getD k 0 = bsB.getD k 0) ∧
    (t1 = t2 → bsA = bsB) := by
  refine ⟨?_, fun he => by rw [he] at h1; exact Option.some.inj (h1.symm.trans h2)⟩
  intro k hk
  rcases genBytestream_some_cases h1 with ⟨hc1, rfl⟩ | ⟨hc1, hmsgs, -, -, -, -, hbsA⟩
  · rcases genBytestream_some_cases h2 with ⟨-, rfl⟩ | ⟨hc2, -, -, -, -, -, -⟩
    · rfl
    · rw [hc1] at hc2; cases hc2
  · rcases genBytestream_some_cases h2 with ⟨hc2, rfl⟩ | ⟨-, -, -, -, -, -, hbsB⟩
    · rw [hc2] at hc1; cases hc1
    · have hW : (((d.msgs.map fun m => m.resolveBitmap R).map Bitmap.width_bytes).flatMap
          (beBytes 2)).length = 16 := by
        rw [length_flatMap_uniform (L := 2) (fun v => beBytes_length 2 v)]
        simp [hmsgs]
      have hP : (MAGIC ++ [0, 0] ++
          [packBits Message.flash d.msgs, packBits Message.border d.msgs] ++
          d.msgs.map Message.modeByte ++
          ((d.msgs.map fun m : Message => m.resolveBitmap R).map
            Bitmap.width_bytes).flatMap (beBytes 2) ++ [0, 0, 0, 0]).length = 36 := by
        simp only [List.length_append, List.length_cons, List.length_nil,
          List.length_map, hW, hmsgs, MAGIC]
      rw [hbsA, hbsB]
      exact getD_eq_outside_middle hP (beBytes_length 8 _) (beBytes_length 8 _)
        (List.length_replicate 20 0) k hk

/-- Counterexample to C8 as stated: the claim places the timestamp at
header bytes 40..47, but serializations one year apart differ at byte 38
(the year byte of the timestamp field, which actually spans bytes 36..43),
a position outside 40..47. -/
theorem spec_C8_cex :
    ¬ ∀ k, k < 40 ∨ 47 < k →
      ((design1.genBytestream trivRast timeA).getD []).getD k 0 =
      ((design1.genBytestream trivRast timeB).getD []).getD k 0 := by
  intro h
  have h38 := h 38 (Or.inl (by norm_num))
  revert h38
  decide

/-- Witness for C8 (amended) at `design1` with the two clock readings. -/
theorem spec_C8_witness :
    ((design1.genBytestream trivRast timeA).getD []).getD 0 0 =
    ((design1.genBytestream trivRast timeB).getD []).getD 0 0 :=
  (spec_C8 trivRast design1 timeA timeB
    ((design1.genBytestream trivRast timeA).getD [])
    ((design1.genBytestream trivRast timeB).getD []) rfl rfl).1
    0 (Or.inl (by norm_num))

/-- C9: serialization itself returns the full (possibly oversized) byte
sequence; the caller-side gate `_get_bytestream` reports "too much data"
exactly when the serialized length exceeds 4096 + 64 bytes. -/
theorem spec_C9 (R : Rasterizer) (d : Design) (t : TimeStruct) (bs : List Nat)
    (hgen : d.genBytestream R t = some bs) :
    (4096 + 64 < bs.length → get_bytestream d R t = some GetResult.tooMuchData) ∧
    (get_bytestream d R t = some GetResult.tooMuchData ↔ 4096 + 64 < bs.length) := by
  have hmain : get_bytestream d R t = some GetResult.tooMuchData ↔
      4096 + 64 < bs.length := by
    unfold get_bytestream
    rw [hgen]
    by_cases he : bs.isEmpty
    · have hnil : bs = [] := by
        cases bs
        · rfl
        · cases he
      subst hnil
      simp
    · have hne : bs ≠ [] := by
        intro hnil
        rw [hnil] at he
        exact he rfl
      by_cases hl : 4096 + 64 < bs.length
      · simp [he, hne, hl]
      · simp [he, hne, hl]
  exact ⟨fun hl => hmain.2 hl, hmain⟩

set_option maxRecDepth 4000 in
/-- Witness for C9: `designBig` serializes to 4200 bytes (> 4160) and the
caller-side gate reports "too much data". -/
theorem spec_C9_witness :
    designBig.genBytestream trivRast time1 = some bsBig ∧
    4096 + 64 < bsBig.length ∧
    get_bytestream designBig trivRast time1 = some GetResult.tooMuchData := by
  have hlen : 4096 + 64 < bsBig.length := by
    rcases @genBytestream_some_cases trivRast designBig time1 bsBig rfl with
      ⟨hc, -⟩ | ⟨-, -, -, -, -, -, hbs⟩
    · exact absurd hc (by decide)
    · rw [hbs]
      simp only [designBig, bigMsg, Message.resolveBitmap, Message.genBitmap,
        List.map_cons, List.map_nil, List.flatMap_cons, List.flatMap_nil,
        List.length_append, List.length_cons, List.length_nil,
        List.length_replicate, beBytes_length, MAGIC, Bitmap.width_bytes, if_true]
      omega
  exact ⟨rfl, hlen, (spec_C9 trivRast designBig time1 bsBig rfl).1 hlen⟩
